import Mathlib

/-!
Shallow embedding of the countdown-timer core of `src/src/main.rs`
(`Arisgod1/rustclock`).

Modelling conventions:
* `std::time::Instant` is a `Nat` time point on a monotone clock; `Duration`
  is a `Nat` span.  `Instant::elapsed()` evaluated at the current time `now`
  is `now - start` (the clock is monotone, so `now ≥ start` in every trace).
* `DateTime<Local>` timestamps (`created_at`, `finished_at`) are also `Nat`.
  The state-machine claims never compare the two clocks, so a single time
  parameter `now` stands for both `Instant::now()` and `Local::now()`.
* Rust `u64` arithmetic wraps modulo `2 ^ 64` (release-profile semantics);
  the wrap is written out explicitly where the source computes in `u64`.
* Strings are handled through their character list (`String.data`), and the
  string helpers used by the source (`str::trim`, `str::split(':')`,
  `u64::from_str`) are embedded as list functions below.
* The egui rendering, audio, notification and JSON I/O layers are external
  collaborators; only the state they read and mutate is modelled.
-/

/-- The ASCII cases of Rust's `char::is_whitespace` (Unicode `White_Space`);
the non-ASCII white-space code points are not exercised by any claim. -/
def isRustWhitespace (c : Char) : Bool :=
  c = ' ' || c = '\t' || c = '\n' || c = '\r' || c.toNat = 11 || c.toNat = 12

/-- Rust `str::trim`: drop white space from both ends. -/
def rustTrim (cs : List Char) : List Char :=
  ((cs.dropWhile isRustWhitespace).reverse.dropWhile isRustWhitespace).reverse

/-- Rust `str::split(':')` collected into a `Vec`: the empty string yields
one empty field, and every `':'` starts a new field. -/
def splitColon : List Char → List (List Char)
  | [] => [[]]
  | c :: rest =>
      if c = ':' then [] :: splitColon rest
      else
        match splitColon rest with
        | [] => [[c]]
        | h :: t => (c :: h) :: t

/-- Strip the single optional leading `'+'` accepted by `u64::from_str`. -/
def stripPlus (cs : List Char) : List Char :=
  match cs with
  | c :: rest => if c = '+' then rest else c :: rest
  | [] => []

/-- Decimal value of a digit string, most significant digit first. -/
def parseDigits (cs : List Char) : Nat :=
  cs.foldl (fun acc c => acc * 10 + (c.toNat - 48)) 0

/-- Spec-side decimal rendering of a natural number, most significant digit
first: the canonical text of "a non-negative integer field" quantified over
by the parser claims. -/
def renderDigits (n : Nat) : List Char :=
  if n < 10 then [Char.ofNat (48 + n)]
  else renderDigits (n / 10) ++ [Char.ofNat (48 + n % 10)]
termination_by n
decreasing_by
  simp_wf
  omega

/-- Rust `str::parse::<u64>()`: an optional `'+'`, then one or more ASCII
digits whose value fits in `u64`; anything else is an error (`none`). -/
def parseU64 (cs : List Char) : Option Nat :=
  let ds := stripPlus cs
  if ds = [] then none
  else if ds.all Char.isDigit then
    if parseDigits ds < 2 ^ 64 then some (parseDigits ds) else none
  else none

/-- The arm of `ClockApp::parse_duration` selected by the number of `':'`
separated components (`main.rs` lines 156-170).  The `u64` products and sums
wrap modulo `2 ^ 64` exactly where the source computes them. -/
def parseParts : List (List Char) → Option Nat
  | [s] => parseU64 s
  | [m, s] =>
      (parseU64 m).bind fun mins =>
        (parseU64 s).bind fun secs =>
          some ((mins * 60 % 2 ^ 64 + secs) % 2 ^ 64)
  | [h, m, s] =>
      (parseU64 h).bind fun hours =>
        (parseU64 m).bind fun mins =>
          (parseU64 s).bind fun secs =>
            some (((hours * 3600 % 2 ^ 64 + mins * 60 % 2 ^ 64) % 2 ^ 64 + secs) % 2 ^ 64)
  | _ => none

/-- `ClockApp::parse_duration` (`main.rs` lines 154-171): trim, split on
`':'`, then parse 1, 2 or 3 numeric components into whole seconds. -/
def parse_duration (input : String) : Option Nat :=
  parseParts (splitColon (rustTrim input.data))

/-- `CountdownTask` (`main.rs` lines 18-33).  The `#[serde(skip)]` fields are
`start`, `pause_start` and `finished_at`. -/
structure CountdownTask where
  id : Nat
  name : String
  input : String
  duration : Nat
  created_at : Nat
  start : Option Nat
  paused : Bool
  pause_start : Option Nat
  elapsed_before_pause : Nat
  finished_at : Option Nat
  deriving Repr, DecidableEq

/-- `CountdownTask::new` (`main.rs` lines 36-49): `now` stands for the
creation instant (`Local::now()` / `Instant::now()`). -/
def CountdownTask.new (id : Nat) (name input : String) (duration : Nat)
    (now : Nat) : CountdownTask :=
  { id := id
    name := name
    input := input
    duration := duration
    created_at := now
    start := some now
    paused := false
    pause_start := none
    elapsed_before_pause := 0
    finished_at := none }

/-- `CountdownTask::elapsed` (`main.rs` lines 51-61), evaluated at time
`now`; `start.elapsed()` is `now - start`. -/
def CountdownTask.elapsed (t : CountdownTask) (now : Nat) : Nat :=
  match t.start with
  | some s => if t.paused then t.elapsed_before_pause
              else t.elapsed_before_pause + (now - s)
  | none => 0

/-- `CountdownTask::remaining` (`main.rs` lines 63-70). -/
def CountdownTask.remaining (t : CountdownTask) (now : Nat) : Nat :=
  let e := t.elapsed now
  if t.duration ≤ e then 0 else t.duration - e

/-- `CountdownTask::is_finished` (`main.rs` lines 72-74). -/
def CountdownTask.is_finished (t : CountdownTask) (now : Nat) : Bool :=
  decide (t.duration ≤ t.elapsed now)

/-- The pause-button handler (`main.rs` lines 344-347): set `paused` and
record the pause boundary.  Shown only for a non-finished running task. -/
def CountdownTask.pause (t : CountdownTask) (now : Nat) : CountdownTask :=
  { t with paused := true, pause_start := some now }

/-- The resume-button handler (`main.rs` lines 336-343): add the wall-clock
span spent paused to `elapsed_before_pause`, clear the pause marker.  Shown
only for a non-finished paused task. -/
def CountdownTask.resume (t : CountdownTask) (now : Nat) : CountdownTask :=
  match t.pause_start with
  | some ps =>
      { t with elapsed_before_pause := t.elapsed_before_pause + (now - ps)
               paused := false
               pause_start := none }
  | none => t

/-- The shape of one persisted task record: exactly the non-`#[serde(skip)]`
fields of `CountdownTask` (`duration` serialised as whole seconds,
`created_at` as a timestamp). -/
structure PersistedTask where
  id : Nat
  name : String
  input : String
  duration : Nat
  created_at : Nat
  paused : Bool
  elapsed_before_pause : Nat
  deriving Repr, DecidableEq

/-- Serialisation of one task: keep every field that lacks `#[serde(skip)]`. -/
def serializeTask (t : CountdownTask) : PersistedTask :=
  { id := t.id
    name := t.name
    input := t.input
    duration := t.duration
    created_at := t.created_at
    paused := t.paused
    elapsed_before_pause := t.elapsed_before_pause }

/-- Deserialisation of one task: the `#[serde(skip)]` fields come back as
their `Default` values (`None`). -/
def deserializeTask (p : PersistedTask) : CountdownTask :=
  { id := p.id
    name := p.name
    input := p.input
    duration := p.duration
    created_at := p.created_at
    start := none
    paused := p.paused
    pause_start := none
    elapsed_before_pause := p.elapsed_before_pause
    finished_at := none }

/-- The countdown-relevant state of `ClockApp` (`main.rs` lines 83-97); the
texture, colour, audio and text-edit fields are UI plumbing. -/
structure ClockApp where
  tasks : List CountdownTask
  next_task_id : Nat
  history : List CountdownTask
  deriving Repr, DecidableEq

/-- `ClockApp::default` restricted to the modelled fields. -/
def ClockApp.init : ClockApp :=
  { tasks := [], next_task_id := 0, history := [] }

/-- The add-button handler (`main.rs` lines 270-290): parse the duration
text, require a positive number of seconds, allocate the next id, default
the name, and append the new running task. -/
def ClockApp.addTask (app : ClockApp) (nameInput inputText : String)
    (now : Nat) : ClockApp :=
  match parse_duration inputText with
  | some dur =>
      if dur > 0 then
        let id := app.next_task_id
        let name := if (rustTrim nameInput.data).isEmpty
                    then "任务#" ++ Nat.repr id
                    else String.mk (rustTrim nameInput.data)
        { app with
            next_task_id := id + 1
            tasks := app.tasks ++ [CountdownTask.new id name inputText dur now] }
      else app
  | none => app

/-- The finalisation check at the top of the per-task loop (`main.rs` lines
302-305): a finished task whose `finished_at` is still unset gets it set and
a clone of the updated task is pushed onto `just_finished_tasks`.  The
`Bool` reports whether this task was finalised by this pass. -/
def tickTask (now : Nat) (t : CountdownTask) : CountdownTask × Bool :=
  if t.is_finished now && t.finished_at.isNone then
    ({ t with finished_at := some now }, true)
  else (t, false)

/-- The finalisation sweep over the active task list in iteration order:
first component is the updated list, second the `just_finished_tasks`
clones in the order they were pushed. -/
def tickTasks (now : Nat) : List CountdownTask → List CountdownTask × List CountdownTask
  | [] => ([], [])
  | t :: rest =>
      ((tickTask now t).1 :: (tickTasks now rest).1,
       (if (tickTask now t).2 then [(tickTask now t).1] else []) ++ (tickTasks now rest).2)

/-- One frame of `ClockApp::update` with no button clicks: run the
finalisation sweep and append the newly finished clones to `history`
(`main.rs` lines 299-305 and 362-371).  Returns the updated app and the
`just_finished_tasks` list handed to the side-effect loop. -/
def ClockApp.tickOnce (app : ClockApp) (now : Nat) : ClockApp × List CountdownTask :=
  ({ app with
      tasks := (tickTasks now app.tasks).1
      history := app.history ++ (tickTasks now app.tasks).2 },
   (tickTasks now app.tasks).2)

/-- The stop/delete buttons' effect (`main.rs` line 360):
`tasks.retain(|t| !remove_ids.contains(&t.id))`. -/
def ClockApp.removeTasks (app : ClockApp) (ids : List Nat) : ClockApp :=
  { app with tasks := app.tasks.filter (fun t => !ids.contains t.id) }

/-- The history delete button (`main.rs` lines 399-401):
`history.retain(|t| !remove_history_ids.contains(&t.id))`. -/
def ClockApp.deleteFromHistory (app : ClockApp) (ids : List Nat) : ClockApp :=
  { app with history := app.history.filter (fun t => !ids.contains t.id) }

/-- `ClockApp::save_data` (`main.rs` lines 144-152) restricted to the
modelled state: the persisted record holds the serialised history (the
display colour is UI plumbing). -/
def ClockApp.saveData (app : ClockApp) : List PersistedTask :=
  app.history.map serializeTask

/-- The maximum id in a task list, i.e. `iter().map(|t| t.id).max()`
(`main.rs` line 136). -/
def idMax : List CountdownTask → Option Nat
  | [] => none
  | t :: rest =>
      match idMax rest with
      | none => some t.id
      | some m => some (max t.id m)

/-- `ClockApp::load_data` on a successfully read and parsed file
(`main.rs` lines 125-142), applied to the `Default` app state: restore the
history and set `next_task_id` to the largest restored id plus one (leaving
the default `0` when the history is empty). -/
def ClockApp.loadData (file : List PersistedTask) : ClockApp :=
  { tasks := []
    history := file.map deserializeTask
    next_task_id :=
      match idMax (file.map deserializeTask) with
      | some m => m + 1
      | none => 0 }

/-- Registry invariant from the spec: `next_task_id` is strictly greater
than every id in the active set and in the history. -/
def ClockApp.idsBelowNext (app : ClockApp) : Prop :=
  (∀ t ∈ app.tasks, t.id < app.next_task_id) ∧
  (∀ t ∈ app.history, t.id < app.next_task_id)

/-! ## Lemmas about the duration parser -/

theorem dropWhile_eq_self_of_all_false (p : Char → Bool) (l : List Char)
    (h : ∀ c ∈ l, p c = false) : l.dropWhile p = l := by
  cases l with
  | nil => rfl
  | cons a l => simp [List.dropWhile_cons, h a (List.mem_cons_self a l)]

theorem rustTrim_eq_self (l : List Char)
    (h : ∀ c ∈ l, isRustWhitespace c = false) : rustTrim l = l := by
  unfold rustTrim
  rw [dropWhile_eq_self_of_all_false _ _ h]
  rw [dropWhile_eq_self_of_all_false _ _ (fun c hc => h c (List.mem_reverse.mp hc))]
  exact List.reverse_reverse l

theorem splitColon_no_colon (l : List Char) (h : ∀ c ∈ l, c ≠ ':') :
    splitColon l = [l] := by
  induction l with
  | nil => rfl
  | cons c rest ih =>
    have hc : c ≠ ':' := h c (List.mem_cons_self c rest)
    have hr := ih (fun x hx => h x (List.mem_cons_of_mem c hx))
    simp [splitColon, hc, hr]

theorem splitColon_append (l₁ l₂ : List Char) (h : ∀ c ∈ l₁, c ≠ ':') :
    splitColon (l₁ ++ ':' :: l₂) = l₁ :: splitColon l₂ := by
  induction l₁ with
  | nil => simp [splitColon]
  | cons c rest ih =>
    have hc : c ≠ ':' := h c (List.mem_cons_self c rest)
    have hr := ih (fun x hx => h x (List.mem_cons_of_mem c hx))
    simp [splitColon, hc, hr]

theorem digitChar_toNat {d : Nat} (h : d < 10) :
    (Char.ofNat (48 + d)).toNat = 48 + d := by
  interval_cases d <;> decide

theorem digitChar_isDigit {d : Nat} (h : d < 10) :
    (Char.ofNat (48 + d)).isDigit = true := by
  interval_cases d <;> decide

theorem digitChar_not_colon {d : Nat} (h : d < 10) :
    Char.ofNat (48 + d) ≠ ':' := by
  interval_cases d <;> decide

theorem digitChar_not_ws {d : Nat} (h : d < 10) :
    isRustWhitespace (Char.ofNat (48 + d)) = false := by
  interval_cases d <;> decide

theorem renderDigits_mem (n : Nat) :
    ∀ c ∈ renderDigits n, ∃ d, d < 10 ∧ c = Char.ofNat (48 + d) := by
  induction n using Nat.strong_induction_on with
  | _ n ih =>
    intro c hc
    by_cases h : n < 10
    · rw [renderDigits, if_pos h] at hc
      simp only [List.mem_singleton] at hc
      exact ⟨n, h, hc⟩
    · rw [renderDigits, if_neg h] at hc
      rcases List.mem_append.mp hc with h1 | h2
      · exact ih (n / 10) (by omega) c h1
      · simp only [List.mem_singleton] at h2
        exact ⟨n % 10, by omega, h2⟩

theorem renderDigits_ne_nil (n : Nat) : renderDigits n ≠ [] := by
  by_cases h : n < 10
  · rw [renderDigits, if_pos h]
    simp
  · rw [renderDigits, if_neg h]
    simp

theorem renderDigits_foldl (n : Nat) : ∀ acc : Nat,
    (renderDigits n).foldl (fun acc c => acc * 10 + (c.toNat - 48)) acc
      = acc * 10 ^ (renderDigits n).length + n := by
  induction n using Nat.strong_induction_on with
  | _ n ih =>
    intro acc
    by_cases h : n < 10
    · rw [renderDigits, if_pos h]
      simp only [List.foldl_cons, List.foldl_nil, List.length_singleton,
        digitChar_toNat h, pow_one]
      omega
    · rw [renderDigits, if_neg h]
      rw [List.foldl_append]
      rw [ih (n / 10) (by omega) acc]
      simp only [List.foldl_cons, List.foldl_nil, List.length_append,
        List.length_singleton, digitChar_toNat (show n % 10 < 10 by omega)]
      have hpow : acc * 10 ^ ((renderDigits (n / 10)).length + 1)
          = acc * 10 ^ (renderDigits (n / 10)).length * 10 := by
        rw [pow_succ]
        ring
      omega

theorem parseDigits_renderDigits (n : Nat) : parseDigits (renderDigits n) = n := by
  have h := renderDigits_foldl n 0
  simpa [parseDigits] using h

theorem renderDigits_all_digits (n : Nat) :
    ∀ c ∈ renderDigits n, c.isDigit = true := by
  intro c hc
  obtain ⟨d, hd, rfl⟩ := renderDigits_mem n c hc
  exact digitChar_isDigit hd

theorem renderDigits_no_colon (n : Nat) : ∀ c ∈ renderDigits n, c ≠ ':' := by
  intro c hc
  obtain ⟨d, hd, rfl⟩ := renderDigits_mem n c hc
  exact digitChar_not_colon hd

theorem renderDigits_no_ws (n : Nat) :
    ∀ c ∈ renderDigits n, isRustWhitespace c = false := by
  intro c hc
  obtain ⟨d, hd, rfl⟩ := renderDigits_mem n c hc
  exact digitChar_not_ws hd

theorem parseU64_renderDigits {n : Nat} (h : n < 2 ^ 64) :
    parseU64 (renderDigits n) = some n := by
  have hplus : stripPlus (renderDigits n) = renderDigits n := by
    rcases hrd : renderDigits n with _ | ⟨c, rest⟩
    · rfl
    · have hc : c.isDigit = true := by
        apply renderDigits_all_digits
        rw [hrd]
        exact List.mem_cons_self c rest
      have hcp : ¬ (c = '+') := by
        intro he
        rw [he] at hc
        exact absurd hc (by decide)
      simp [stripPlus, hcp]
  have hall : (renderDigits n).all Char.isDigit = true :=
    List.all_eq_true.mpr (renderDigits_all_digits n)
  simp only [parseU64, hplus, hall]
  rw [if_neg (renderDigits_ne_nil n)]
  simp only [if_true]
  rw [parseDigits_renderDigits]
  rw [if_pos h]

theorem parseParts_bad_field (parts : List (List Char))
    (hp : ∃ p ∈ parts, parseU64 p = none) : parseParts parts = none := by
  obtain ⟨p, hmem, hnone⟩ := hp
  rcases parts with _ | ⟨a, _ | ⟨b, _ | ⟨c, _ | ⟨d, t⟩⟩⟩⟩
  · simp at hmem
  · simp only [List.mem_singleton] at hmem
    subst hmem
    simp [parseParts, hnone]
  · simp only [List.mem_cons, List.mem_singleton, List.not_mem_nil, or_false] at hmem
    rcases hmem with rfl | rfl
    · simp [parseParts, hnone]
    · cases ha : parseU64 a <;> simp [parseParts, ha, hnone]
  · simp only [List.mem_cons, List.mem_singleton, List.not_mem_nil, or_false] at hmem
    rcases hmem with rfl | rfl | rfl
    · simp [parseParts, hnone]
    · cases ha : parseU64 a <;> simp [parseParts, ha, hnone]
    · cases ha : parseU64 a <;> cases hb : parseU64 b <;>
        simp [parseParts, ha, hb, hnone]
  · rfl

theorem parseParts_length_ge_four (parts : List (List Char))
    (h : 4 ≤ parts.length) : parseParts parts = none := by
  rcases parts with _ | ⟨a, _ | ⟨b, _ | ⟨c, _ | ⟨d, t⟩⟩⟩⟩
  · simp at h
  · simp at h
  · simp at h
  · simp at h
  · rfl

/-! ## Lemmas about the finalisation sweep and the registry -/

theorem tickTask_id (now : Nat) (t : CountdownTask) :
    ((tickTask now t).1).id = t.id := by
  unfold tickTask
  split <;> rfl

theorem tickTask_keeps_finished_at (now : Nat) (t : CountdownTask) (x : Nat)
    (h : t.finished_at = some x) : ((tickTask now t).1).finished_at = some x := by
  unfold tickTask
  have hn : t.finished_at.isNone = false := by
    rw [h]
    rfl
  rw [hn]
  simp [h]

theorem tickTask_idem (now : Nat) (t : CountdownTask) :
    tickTask now (tickTask now t).1 = ((tickTask now t).1, false) := by
  by_cases hc : (t.is_finished now && t.finished_at.isNone) = true
  · have h1 : tickTask now t = ({ t with finished_at := some now }, true) := by
      unfold tickTask
      rw [if_pos hc]
    rw [h1]
    unfold tickTask
    simp
  · have h1 : tickTask now t = (t, false) := by
      unfold tickTask
      rw [if_neg hc]
    rw [h1]
    unfold tickTask
    rw [if_neg hc]

theorem tickTasks_idem (now : Nat) (l : List CountdownTask) :
    tickTasks now (tickTasks now l).1 = ((tickTasks now l).1, []) := by
  induction l with
  | nil => rfl
  | cons t rest ih =>
    simp only [tickTasks]
    rw [tickTask_idem, ih]
    simp

theorem tickTasks_fst_ids (now : Nat) (l : List CountdownTask) :
    ((tickTasks now l).1).map (fun t => t.id) = l.map (fun t => t.id) := by
  induction l with
  | nil => rfl
  | cons t rest ih => simp [tickTasks, tickTask_id, ih]

theorem tickTasks_snd_ids (now : Nat) (l : List CountdownTask) :
    ∀ t ∈ (tickTasks now l).2, ∃ u ∈ l, t.id = u.id := by
  induction l with
  | nil =>
    intro t ht
    simp [tickTasks] at ht
  | cons a rest ih =>
    intro t ht
    simp only [tickTasks] at ht
    rcases List.mem_append.mp ht with h1 | h2
    · by_cases hf : (tickTask now a).2 = true
      · rw [if_pos hf] at h1
        simp only [List.mem_singleton] at h1
        exact ⟨a, List.mem_cons_self a rest, by rw [h1, tickTask_id]⟩
      · rw [if_neg hf] at h1
        simp at h1
    · obtain ⟨u, hu, he⟩ := ih t h2
      exact ⟨u, List.mem_cons_of_mem a hu, he⟩

theorem idMax_eq_none (l : List CountdownTask) (h : idMax l = none) : l = [] := by
  cases l with
  | nil => rfl
  | cons t rest =>
    exfalso
    simp only [idMax] at h
    cases hr : idMax rest <;> rw [hr] at h <;> simp at h

theorem idMax_bound (l : List CountdownTask) :
    ∀ m : Nat, idMax l = some m → ∀ t ∈ l, t.id ≤ m := by
  induction l with
  | nil =>
    intro m _ t ht
    simp at ht
  | cons a rest ih =>
    intro m h t ht
    simp only [idMax] at h
    rcases hr : idMax rest with _ | m'
    · rw [hr] at h
      simp only [Option.some.injEq] at h
      have hrest : rest = [] := idMax_eq_none rest hr
      subst hrest
      simp only [List.mem_singleton] at ht
      rw [ht, h]
    · rw [hr] at h
      simp only [Option.some.injEq] at h
      rcases List.mem_cons.mp ht with rfl | hmem
      · rw [← h]
        exact le_max_left _ _
      · have hb := ih m' hr t hmem
        rw [← h]
        exact le_trans hb (le_max_right _ _)

/-! ## Lemmas about the id invariant -/

theorem addTask_keeps_idsBelowNext (app : ClockApp) (nameInput inputText : String)
    (now : Nat) (h : app.idsBelowNext) :
    (app.addTask nameInput inputText now).idsBelowNext := by
  obtain ⟨hts, hhs⟩ := h
  unfold ClockApp.addTask
  split
  · split
    · refine ⟨?_, ?_⟩
      · intro t ht
        rcases List.mem_append.mp ht with h1 | h2
        · exact Nat.lt_succ_of_lt (hts t h1)
        · simp only [List.mem_singleton] at h2
          subst h2
          exact Nat.lt_succ_self _
      · intro t ht
        exact Nat.lt_succ_of_lt (hhs t ht)
    · exact ⟨hts, hhs⟩
  · exact ⟨hts, hhs⟩

theorem tickOnce_keeps_idsBelowNext (app : ClockApp) (now : Nat)
    (h : app.idsBelowNext) : ((app.tickOnce now).1).idsBelowNext := by
  obtain ⟨hts, hhs⟩ := h
  constructor
  · intro t ht
    have hmem : t.id ∈ app.tasks.map (fun t => t.id) := by
      rw [← tickTasks_fst_ids now app.tasks]
      exact List.mem_map_of_mem _ ht
    obtain ⟨u, hu, hue⟩ := List.mem_map.mp hmem
    exact hue ▸ hts u hu
  · intro t ht
    rcases List.mem_append.mp ht with h1 | h2
    · exact hhs t h1
    · obtain ⟨u, hu, he⟩ := tickTasks_snd_ids now app.tasks t h2
      rw [he]
      exact hts u hu

theorem removeTasks_keeps_idsBelowNext (app : ClockApp) (ids : List Nat)
    (h : app.idsBelowNext) : (app.removeTasks ids).idsBelowNext := by
  obtain ⟨hts, hhs⟩ := h
  exact ⟨fun t ht => hts t (List.mem_of_mem_filter ht), hhs⟩

theorem deleteFromHistory_keeps_idsBelowNext (app : ClockApp) (ids : List Nat)
    (h : app.idsBelowNext) : (app.deleteFromHistory ids).idsBelowNext := by
  obtain ⟨hts, hhs⟩ := h
  exact ⟨hts, fun t ht => hhs t (List.mem_of_mem_filter ht)⟩

theorem loadData_idsBelowNext (file : List PersistedTask) :
    (ClockApp.loadData file).idsBelowNext := by
  constructor
  · intro t ht
    exact absurd ht (List.not_mem_nil t)
  · intro t ht
    cases hm : idMax (file.map deserializeTask) with
    | none =>
      have hnil : file.map deserializeTask = [] := idMax_eq_none _ hm
      exact absurd (hnil ▸ ht) (List.not_mem_nil t)
    | some m =>
      have hb := idMax_bound _ m hm t ht
      have hn : (ClockApp.loadData file).next_task_id = m + 1 := by
        unfold ClockApp.loadData
        simp [hm]
      rw [hn]
      omega

theorem pause_keeps_id (t : CountdownTask) (now : Nat) :
    (t.pause now).id = t.id := rfl

theorem resume_keeps_id (t : CountdownTask) (now : Nat) :
    (t.resume now).id = t.id := by
  rcases ht : t.pause_start with _ | ps <;> simp [CountdownTask.resume, ht]

/-! ## Claim theorems -/

/-- Claim C1 is violated by the code.  A task is created at time 0, paused
at time 0 (so its elapsed value while paused is E = 0) and resumed after
the wall-clock gap G = 5.  The claim requires `elapsed()` immediately after
the resume to equal E = 0; the code returns 10, because the resume handler
adds the pause gap to `elapsed_before_pause` while `start` keeps pointing
at the creation instant, charging the paused span twice.  The first
conjunct records E: `elapsed()` while paused is 0. -/
theorem c1_resume_double_counts_pause_gap :
    ((((CountdownTask.new 0 "t" "30" 30 0).pause 0).elapsed 3) = 0)
    ∧ ((((CountdownTask.new 0 "t" "30" 30 0).pause 0).resume 5).elapsed 5) = 10 :=
  ⟨rfl, rfl⟩

/-- Claim C2 is violated by the code.  A task created at time 0 and left
running has live elapsed 5 at time 5, but clicking pause at time 5 freezes
`elapsed()` at the stale `elapsed_before_pause = 0` (the pause handler
never folds the live value into the accumulator), so `elapsed()` drops
from 5 to 0: pause does not freeze at the live value and does decrease
`elapsed()`. -/
theorem c2_pause_discards_live_elapsed :
    ((CountdownTask.new 0 "t" "30" 30 0).elapsed 5 = 5)
    ∧ (((CountdownTask.new 0 "t" "30" 30 0).pause 5).elapsed 5 = 0) :=
  ⟨rfl, rfl⟩

/-- Claim C3 counterexample: the input `"18446744073709551616"` (decimal
for 2^64) is of shape `S` with a single non-negative-integer field — the
third and fourth conjuncts confirm its characters are all digits with
decimal value exactly 2^64, and the fifth that it trims and splits into one
component — yet `parse_duration` returns `none` rather than the
`some 18446744073709551616` the claim demands, because `u64::from_str`
rejects values of 2^64 and above. -/
theorem c3_counterexample_u64_overflow_field :
    parse_duration "18446744073709551616" ≠ some 18446744073709551616
    ∧ parse_duration "18446744073709551616" = none
    ∧ parseDigits ("18446744073709551616".data) = 2 ^ 64
    ∧ (("18446744073709551616".data).all Char.isDigit) = true
    ∧ (splitColon (rustTrim ("18446744073709551616".data))).length = 1 := by
  have h : parse_duration "18446744073709551616" = none := rfl
  exact ⟨by simp [h], h, rfl, rfl, rfl⟩

/-- Claim C3 (amended): for every trimmed input of shape `S`, `M:S` or
`H:M:S` whose fields are decimal renderings of non-negative integers that
each fit in `u64` and whose total `hours*3600 + minutes*60 + seconds` fits
in `u64`, `parse_duration` returns exactly that many seconds; a component
count of four or more yields `none`, and so does any component that fails
to parse as a `u64`. -/
theorem c3_parse_duration_amended :
    (∀ s : Nat, s < 2 ^ 64 →
        parse_duration (String.mk (renderDigits s)) = some s)
    ∧ (∀ m s : Nat, m < 2 ^ 64 → s < 2 ^ 64 → m * 60 + s < 2 ^ 64 →
        parse_duration (String.mk (renderDigits m ++ ':' :: renderDigits s))
          = some (m * 60 + s))
    ∧ (∀ h m s : Nat, h < 2 ^ 64 → m < 2 ^ 64 → s < 2 ^ 64 →
        h * 3600 + m * 60 + s < 2 ^ 64 →
        parse_duration
            (String.mk (renderDigits h ++ ':' :: (renderDigits m ++ ':' :: renderDigits s)))
          = some (h * 3600 + m * 60 + s))
    ∧ (∀ input : String, 4 ≤ (splitColon (rustTrim input.data)).length →
        parse_duration input = none)
    ∧ (∀ parts : List (List Char), (∃ p ∈ parts, parseU64 p = none) →
        parseParts parts = none) := by
  refine ⟨?_, ?_, ?_, ?_, ?_⟩
  · intro s hs
    unfold parse_duration
    rw [show (String.mk (renderDigits s)).data = renderDigits s from rfl]
    rw [rustTrim_eq_self _ (renderDigits_no_ws s)]
    rw [splitColon_no_colon _ (renderDigits_no_colon s)]
    simp only [parseParts]
    rw [parseU64_renderDigits hs]
  · intro m s hm hs htot
    unfold parse_duration
    rw [show (String.mk (renderDigits m ++ ':' :: renderDigits s)).data
          = renderDigits m ++ ':' :: renderDigits s from rfl]
    have hws : ∀ c ∈ renderDigits m ++ ':' :: renderDigits s,
        isRustWhitespace c = false := by
      intro c hc
      rcases List.mem_append.mp hc with h1 | h2
      · exact renderDigits_no_ws m c h1
      · rcases List.mem_cons.mp h2 with rfl | h3
        · rfl
        · exact renderDigits_no_ws s c h3
    rw [rustTrim_eq_self _ hws]
    rw [splitColon_append _ _ (renderDigits_no_colon m)]
    rw [splitColon_no_colon _ (renderDigits_no_colon s)]
    simp only [parseParts]
    rw [parseU64_renderDigits hm, parseU64_renderDigits hs]
    have h1 : m * 60 < 2 ^ 64 := lt_of_le_of_lt (Nat.le_add_right _ _) htot
    show some ((m * 60 % 2 ^ 64 + s) % 2 ^ 64) = some (m * 60 + s)
    rw [Nat.mod_eq_of_lt h1, Nat.mod_eq_of_lt htot]
  · intro h m s hh hm hs htot
    unfold parse_duration
    rw [show (String.mk (renderDigits h ++ ':' :: (renderDigits m ++ ':' :: renderDigits s))).data
          = renderDigits h ++ ':' :: (renderDigits m ++ ':' :: renderDigits s) from rfl]
    have hws : ∀ c ∈ renderDigits h ++ ':' :: (renderDigits m ++ ':' :: renderDigits s),
        isRustWhitespace c = false := by
      intro c hc
      rcases List.mem_append.mp hc with h1 | h2
      · exact renderDigits_no_ws h c h1
      · rcases List.mem_cons.mp h2 with rfl | h3
        · rfl
        · rcases List.mem_append.mp h3 with h4 | h5
          · exact renderDigits_no_ws m c h4
          · rcases List.mem_cons.mp h5 with rfl | h6
            · rfl
            · exact renderDigits_no_ws s c h6
    rw [rustTrim_eq_self _ hws]
    rw [splitColon_append _ _ (renderDigits_no_colon h)]
    rw [splitColon_append _ _ (renderDigits_no_colon m)]
    rw [splitColon_no_colon _ (renderDigits_no_colon s)]
    simp only [parseParts]
    rw [parseU64_renderDigits hh, parseU64_renderDigits hm, parseU64_renderDigits hs]
    have hc1 : h * 3600 + m * 60 < 2 ^ 64 := lt_of_le_of_lt (Nat.le_add_right _ _) htot
    have ha1 : h * 3600 < 2 ^ 64 := lt_of_le_of_lt (Nat.le_add_right _ _) hc1
    have hb1 : m * 60 < 2 ^ 64 := lt_of_le_of_lt (Nat.le_add_left _ _) hc1
    show some (((h * 3600 % 2 ^ 64 + m * 60 % 2 ^ 64) % 2 ^ 64 + s) % 2 ^ 64)
        = some (h * 3600 + m * 60 + s)
    rw [Nat.mod_eq_of_lt ha1, Nat.mod_eq_of_lt hb1, Nat.mod_eq_of_lt hc1,
      Nat.mod_eq_of_lt htot]
  · intro input hlen
    exact parseParts_length_ge_four _ hlen
  · exact parseParts_bad_field

/-- Witness for C3 (amended): `"1:2:3"` — written as the decimal rendering
of its fields — parses to 3723 seconds, and a four-component input is
rejected. -/
theorem c3_parse_duration_amended_witness :
    parse_duration
        (String.mk (renderDigits 1 ++ ':' :: (renderDigits 2 ++ ':' :: renderDigits 3)))
      = some 3723
    ∧ parse_duration "1:2:3:4" = none := by
  constructor
  · have hx := c3_parse_duration_amended.2.2.1 1 2 3 (by decide) (by decide)
      (by decide) (by decide)
    simpa using hx
  · exact c3_parse_duration_amended.2.2.2.1 "1:2:3:4" (by decide)

/-- Claim C4: finalisation is exactly once.  Running the finalisation pass
a second time at the same instant leaves tasks and history unchanged and
reports an empty newly-finished list, and a task whose `finished_at` is
already set keeps that value through any further pass. -/
theorem c4_finalization_exactly_once :
    ∀ (app : ClockApp) (now : Nat),
      (((app.tickOnce now).1.tickOnce now).1.tasks = (app.tickOnce now).1.tasks)
      ∧ (((app.tickOnce now).1.tickOnce now).1.history = (app.tickOnce now).1.history)
      ∧ (((app.tickOnce now).1.tickOnce now).2 = [])
      ∧ (∀ (t : CountdownTask) (x : Nat), t.finished_at = some x →
           ((tickTask now t).1).finished_at = some x) := by
  intro app now
  have hidem := tickTasks_idem now app.tasks
  refine ⟨?_, ?_, ?_, ?_⟩
  · simp [ClockApp.tickOnce, hidem]
  · simp [ClockApp.tickOnce, hidem]
  · simp [ClockApp.tickOnce, hidem]
  · exact fun t x hx => tickTask_keeps_finished_at now t x hx

/-- Witness for C4: a task whose `finished_at` is already set at 0 keeps it
through a further finalisation pass. -/
theorem c4_finalization_exactly_once_witness :
    ((tickTask 0 (CountdownTask.mk 0 "t" "1" 1 0 none false none 0 (some 0))).1).finished_at
      = some 0 :=
  (c4_finalization_exactly_once ClockApp.init 0).2.2.2 _ 0 rfl

/-- Claim C5: `remaining()` is `target_duration - elapsed()` floored at
zero — in particular it is exactly zero whenever `elapsed() ≥
target_duration`, the finished condition, and never negative — and
`is_finished()` holds exactly when `elapsed() ≥ target_duration`. -/
theorem c5_remaining_is_floored_difference :
    ∀ (t : CountdownTask) (now : Nat),
      ((t.remaining now : ℤ) = max 0 ((t.duration : ℤ) - (t.elapsed now : ℤ)))
      ∧ (t.is_finished now = true ↔ t.duration ≤ t.elapsed now) := by
  intro t now
  constructor
  · simp only [CountdownTask.remaining]
    by_cases h : t.duration ≤ t.elapsed now
    · rw [if_pos h]
      have hle : (t.duration : ℤ) - (t.elapsed now : ℤ) ≤ 0 := by omega
      rw [max_eq_left hle]
      simp
    · rw [if_neg h]
      have hle : t.elapsed now ≤ t.duration := Nat.le_of_not_le h
      have hnn : (0 : ℤ) ≤ (t.duration : ℤ) - (t.elapsed now : ℤ) := by omega
      rw [Nat.cast_sub hle, max_eq_right hnn]
  · simp [CountdownTask.is_finished]

/-- Claim C6: a zero-length duration is accepted by the parser (`"0"`
parses to zero seconds) but the add handler creates no task: whenever the
duration text parses to zero the whole app state, in particular the active
task list and the id counter, is unchanged. -/
theorem c6_zero_duration_add_is_noop :
    parse_duration "0" = some 0
    ∧ (∀ (app : ClockApp) (nameInput inputText : String) (now : Nat),
        parse_duration inputText = some 0 →
        app.addTask nameInput inputText now = app) := by
  constructor
  · rfl
  · intro app nameInput inputText now h
    unfold ClockApp.addTask
    rw [h]
    exact rfl

/-- Witness for C6: adding with the text `"0"` leaves the initial app
unchanged. -/
theorem c6_zero_duration_add_is_noop_witness :
    ClockApp.init.addTask "x" "0" 3 = ClockApp.init :=
  c6_zero_duration_add_is_noop.2 ClockApp.init "x" "0" 3 rfl

/-- Claim C7 counterexample: in one run, tasks 0 (one second) and 1 (a
hundred seconds) are added at time 0; the pass at time 1 finalises task 0
into history, task 1 is stopped by the user, and the history is saved.  A
restart that reloads the saved file sets `next_task_id` to 1, which is not
strictly greater than the already-assigned id 1 — and the next add indeed
hands out id 1 again. -/
theorem c7_counterexample_id_reuse_after_reload :
    ((((ClockApp.init.addTask "a" "1" 0).addTask "b" "100" 0).tasks.map
        (fun t => t.id)) = [0, 1])
    ∧ ((ClockApp.loadData (((((ClockApp.init.addTask "a" "1" 0).addTask "b" "100" 0).tickOnce 1).1.removeTasks
          [1]).saveData)).next_task_id = 1)
    ∧ (((ClockApp.loadData (((((ClockApp.init.addTask "a" "1" 0).addTask "b" "100" 0).tickOnce 1).1.removeTasks
          [1]).saveData)).addTask "c" "5" 10).tasks.map (fun t => t.id) = [1]) :=
  ⟨rfl, rfl, rfl⟩

/-- Claim C7 (amended): `next_task_id` is strictly greater than every id in
the active set and in the history; this invariant is preserved by add,
by the finalisation pass, by stop/delete and by history deletion, and a
reload re-establishes it for the ids present in the persisted history
(ids assigned to tasks that were removed without being persisted are not
covered and may be reused after a restart, as the counterexample shows).
Pause and resume do not touch ids at all. -/
theorem c7_next_id_exceeds_stored_ids :
    ∀ (app : ClockApp) (nameInput inputText : String) (now : Nat)
      (ids : List Nat) (file : List PersistedTask),
      app.idsBelowNext →
        (app.addTask nameInput inputText now).idsBelowNext
        ∧ ((app.tickOnce now).1).idsBelowNext
        ∧ (app.removeTasks ids).idsBelowNext
        ∧ (app.deleteFromHistory ids).idsBelowNext
        ∧ (ClockApp.loadData file).idsBelowNext
        ∧ (∀ t : CountdownTask, (t.pause now).id = t.id ∧ (t.resume now).id = t.id) := by
  intro app nameInput inputText now ids file hinv
  exact ⟨addTask_keeps_idsBelowNext app nameInput inputText now hinv,
    tickOnce_keeps_idsBelowNext app now hinv,
    removeTasks_keeps_idsBelowNext app ids hinv,
    deleteFromHistory_keeps_idsBelowNext app ids hinv,
    loadData_idsBelowNext file,
    fun t => ⟨pause_keeps_id t now, resume_keeps_id t now⟩⟩

/-- Witness for C7 (amended): adding a task to a concrete one-task app that
satisfies the invariant yields a state that still satisfies it. -/
theorem c7_next_id_exceeds_stored_ids_witness :
    ((ClockApp.mk [CountdownTask.new 0 "a" "2" 2 0] 1 []).addTask "b" "3" 0).idsBelowNext :=
  (c7_next_id_exceeds_stored_ids (ClockApp.mk [CountdownTask.new 0 "a" "2" 2 0] 1 [])
    "b" "3" 0 [] [] (by constructor <;> decide)).1

/-- Claim C8: saving the history and reloading it reproduces the identical
(id, label, target duration, creation timestamp) tuple for every entry, and
the transient `#[serde(skip)]` fields — the running-since marker `start`,
the pause marker `pause_start` and the `finished_at` timestamp — are all
`None` after the reload. -/
theorem c8_history_roundtrip :
    ∀ app : ClockApp,
      ((ClockApp.loadData app.saveData).history.map
          (fun t => (t.id, t.name, t.duration, t.created_at))
        = app.history.map (fun t => (t.id, t.name, t.duration, t.created_at)))
      ∧ ((ClockApp.loadData app.saveData).history.all
          (fun t => t.start.isNone && t.pause_start.isNone && t.finished_at.isNone))
        = true := by
  intro app
  constructor
  · show ((app.history.map serializeTask).map deserializeTask).map _ = _
    rw [List.map_map, List.map_map]
    rfl
  · show ((app.history.map serializeTask).map deserializeTask).all _ = true
    rw [List.map_map, List.all_eq_true]
    intro x hx
    obtain ⟨t, ht, rfl⟩ := List.mem_map.mp hx
    rfl

/-- Claim C9 counterexample: a one-second task created at time 0 is
finalised by the pass at time 1 — it is reported as newly finished and a
copy is appended to history — yet it is still present in the active task
list afterwards, contradicting the claimed automatic removal. -/
theorem c9_counterexample_finished_task_stays_active :
    (((ClockApp.mk [CountdownTask.new 0 "a" "1" 1 0] 1 []).tickOnce 1).2.map
        (fun t => t.id) = [0])
    ∧ (((ClockApp.mk [CountdownTask.new 0 "a" "1" 1 0] 1 []).tickOnce 1).1.history.map
        (fun t => t.id) = [0])
    ∧ (((ClockApp.mk [CountdownTask.new 0 "a" "1" 1 0] 1 []).tickOnce 1).1.tasks.map
        (fun t => t.id) = [0]) :=
  ⟨rfl, rfl, rfl⟩

/-- Claim C9 (amended): the finalising pass appends the newly finished
tasks to history but leaves the active list's ids exactly as they were;
a task leaves the active set only through the explicit stop/delete
command, which filters the listed ids out. -/
theorem c9_removal_only_by_explicit_command :
    ∀ (app : ClockApp) (now : Nat) (ids : List Nat),
      ((app.tickOnce now).1.tasks.map (fun t => t.id) = app.tasks.map (fun t => t.id))
      ∧ ((app.tickOnce now).1.history = app.history ++ (app.tickOnce now).2)
      ∧ ((app.removeTasks ids).tasks.all (fun t => !ids.contains t.id) = true) := by
  intro app now ids
  refine ⟨tickTasks_fst_ids now app.tasks, rfl, ?_⟩
  rw [List.all_eq_true]
  intro t ht
  exact (List.mem_filter.mp ht).2

/-- Claim C10: a task reloaded from the persisted file has `start = None`,
so `elapsed()` is zero, `remaining()` is the full target duration, and —
since every task ever created has a positive duration — `is_finished()` is
`false`: a reloaded completed task no longer reports itself finished. -/
theorem c10_reloaded_history_task_is_unfinished :
    ∀ (p : PersistedTask) (now : Nat),
      ((deserializeTask p).start = none)
      ∧ ((deserializeTask p).elapsed now = 0)
      ∧ ((deserializeTask p).remaining now = p.duration)
      ∧ (0 < p.duration → (deserializeTask p).is_finished now = false) := by
  intro p now
  refine ⟨rfl, rfl, ?_, ?_⟩
  · simp only [CountdownTask.remaining, CountdownTask.elapsed, deserializeTask]
    split <;> omega
  · intro hd
    simp only [CountdownTask.is_finished, CountdownTask.elapsed, deserializeTask]
    rw [decide_eq_false_iff_not]
    omega

/-- Witness for C10: a reloaded five-second task does not report itself
finished at time 7. -/
theorem c10_reloaded_history_task_is_unfinished_witness :
    (deserializeTask (PersistedTask.mk 0 "a" "5" 5 0 false 0)).is_finished 7 = false :=
  (c10_reloaded_history_task_is_unfinished (PersistedTask.mk 0 "a" "5" 5 0 false 0) 7).2.2.2
    (by decide)
